import Mathlib

/-!
Shallow embedding of the `KeapClient` class from `src/keap-client.ts`
(qwickapps/keap-client) and proofs of the specification's claims about it.

Conventions of the embedding:

* JavaScript `string | null | undefined` values are `Option String`; JS
  truthiness of such a value (`if (x)`) is the `truthy` predicate below
  (both absence and the empty string are falsy).
* Timestamps (`Date.now()`, `Date.getTime()`) are integer milliseconds.
* The remote HTTP layer is abstracted by oracles: an `HttpResponse` per
  request actually made, and an `Except`-valued oracle for the token
  endpoint.  Stateful methods take the current `ClientState` and return
  the new one explicitly; instrumentation counters (`requests`, `auths`)
  count the API round trips and token-endpoint round trips a call performs.
* A thrown JS `Error` is `Except.error` carrying the message string.
-/

namespace KeapClient

/-- JS truthiness of a `string | null | undefined` value: `null`/`undefined`
and the empty string are falsy. -/
def truthy : Option String → Bool
  | none => false
  | some s => s != ""

/-- The `environment` field of `KeapClientConfig` (`types.ts`). -/
inductive Environment where
  | development
  | staging
  | production
deriving DecidableEq, Repr

/-- `KeapClientConfig` from `types.ts`: all fields optional (`none` models an
absent field). -/
structure KeapClientConfig where
  clientId : Option String := none
  clientSecret : Option String := none
  serviceAccountToken : Option String := none
  environment : Option Environment := none
  allowWrite : Option Bool := none
  baseUrl : Option String := none
deriving DecidableEq, Repr

/-- The client's `this.config` after the constructor merged in the defaults:
`environment`, `allowWrite` and `baseUrl` are resolved. -/
structure ResolvedConfig where
  clientId : Option String
  clientSecret : Option String
  serviceAccountToken : Option String
  environment : Environment
  allowWrite : Bool
  baseUrl : String
deriving DecidableEq, Repr

/-- The mutable instance state of a `KeapClient`: `this.accessToken`,
`this.tokenExpiry` (ms timestamp) and the read-only `this.config`. -/
structure ClientState where
  config : ResolvedConfig
  accessToken : Option String
  tokenExpiry : Option Int
deriving DecidableEq, Repr

/-- `KeapClient.isTokenExpired` (`keap-client.ts:298-303`): no expiry means
expired; otherwise expired iff the expiry is at most 5 minutes after `now`. -/
def isTokenExpired (tokenExpiry : Option Int) (now : Int) : Bool :=
  match tokenExpiry with
  | none => true
  | some t =>
    -- bufferTime = 5 * 60 * 1000
    decide (t ≤ now + 5 * 60 * 1000)

/-- The `KeapClient` constructor (`keap-client.ts:46-70`): merge defaults,
force `allowWrite := false` in production, validate the credential
configuration, and adopt a service-account token (with a one-year synthetic
expiry) when one is supplied.  `now` is `Date.now()` at construction. -/
def construct (userCfg : KeapClientConfig) (now : Int) : Except String ClientState :=
  let cfg0 : ResolvedConfig :=
    { clientId := userCfg.clientId
      clientSecret := userCfg.clientSecret
      serviceAccountToken := userCfg.serviceAccountToken
      environment := userCfg.environment.getD .production
      allowWrite := userCfg.allowWrite.getD false
      baseUrl := userCfg.baseUrl.getD "https://api.infusionsoft.com/crm/rest/v1" }
  -- Production is always read-only for safety
  let cfg := if cfg0.environment = .production then { cfg0 with allowWrite := false } else cfg0
  if !truthy cfg.serviceAccountToken && (!truthy cfg.clientId || !truthy cfg.clientSecret) then
    .error "Either serviceAccountToken or both clientId and clientSecret must be provided"
  else if truthy cfg.serviceAccountToken then
    -- Service account tokens don't expire, so set a far future date (1 year)
    .ok { config := cfg
          accessToken := cfg.serviceAccountToken
          tokenExpiry := some (now + 365 * 24 * 60 * 60 * 1000) }
  else
    .ok { config := cfg, accessToken := none, tokenExpiry := none }

/-- `KeapClient.isAuthenticated` (`keap-client.ts:226-228`). -/
def isAuthenticated (st : ClientState) (now : Int) : Bool :=
  truthy st.accessToken && !isTokenExpired st.tokenExpiry now

/-- The record returned by `KeapClient.getStatus` (`keap-client.ts:233-241`). -/
structure Status where
  authenticated : Bool
  environment : Environment
  readOnlyMode : Bool
  tokenExpiry : Option Int
  baseUrl : String
deriving DecidableEq, Repr

/-- `KeapClient.getStatus` (`keap-client.ts:233-241`). -/
def getStatus (st : ClientState) (now : Int) : Status :=
  { authenticated := isAuthenticated st now
    environment := st.config.environment
    readOnlyMode := !st.config.allowWrite
    tokenExpiry := st.tokenExpiry
    baseUrl := st.config.baseUrl }

/-- The token-endpoint response fields `authenticateApp` uses
(`access_token`, `expires_in` seconds). -/
structure TokenData where
  access_token : String
  expires_in : Int
deriving DecidableEq, Repr

/-- Outcome of `authenticateApp` / `ensureAuthenticated`: thrown error or
unit, new state, and the number of token-endpoint round trips performed. -/
structure AuthOutcome where
  result : Except String Unit
  state : ClientState
  auths : Nat
deriving Repr

/-- `KeapClient.authenticateApp` (`keap-client.ts:260-293`): requires a
client id and secret, performs one token-endpoint round trip (the
`authOracle`, which models the POST to the token URL together with response
parsing), and on success stores the token with expiry `now + expires_in`
seconds. -/
def authenticateApp (st : ClientState) (authOracle : Except String TokenData)
    (now : Int) : AuthOutcome :=
  if !truthy st.config.clientId || !truthy st.config.clientSecret then
    { result := .error "Client ID and secret are required for OAuth authentication"
      state := st, auths := 0 }
  else
    match authOracle with
    | .error e => { result := .error e, state := st, auths := 1 }
    | .ok td =>
      { result := .ok ()
        state := { st with accessToken := some td.access_token
                           tokenExpiry := some (now + td.expires_in * 1000) }
        auths := 1 }

/-- `KeapClient.ensureAuthenticated` (`keap-client.ts:246-255`): a no-op in
service-account mode; otherwise authenticates iff there is no (truthy)
access token or the token is expired. -/
def ensureAuthenticated (st : ClientState) (authOracle : Except String TokenData)
    (now : Int) : AuthOutcome :=
  if truthy st.config.serviceAccountToken then
    { result := .ok (), state := st, auths := 0 }
  else if !truthy st.accessToken || isTokenExpired st.tokenExpiry now then
    authenticateApp st authOracle now
  else
    { result := .ok (), state := st, auths := 0 }

/-- An HTTP response as the client observes it: numeric status and body
text (`response.text()`). -/
structure HttpResponse where
  status : Nat
  body : String
deriving DecidableEq, Repr

/-- The Fetch API's `Response.ok`: status in the range 200-299. -/
def HttpResponse.isOk (r : HttpResponse) : Bool :=
  decide (200 ≤ r.status) && decide (r.status ≤ 299)

/-- Outcome of `makeAuthenticatedRequest`: the returned response or the
thrown error, the new state, and instrumentation counters — `requests` API
round trips and `auths` token-endpoint round trips were performed. -/
structure RequestOutcome where
  result : Except String HttpResponse
  state : ClientState
  requests : Nat
  auths : Nat
deriving Repr

/-- `KeapClient.makeAuthenticatedRequest` (`keap-client.ts:491-543`).
`first` is the response the remote returns to the initial request and
`retryResp` the one it returns to the retried request (consumed only when a
retry happens); `authOracle` serves a re-authentication.  On a 401 in
service-account mode it throws; on a 401 otherwise it clears the token,
re-authenticates via `ensureAuthenticated` and returns the retried
response WITHOUT any status check; any other non-ok status throws a
`Keap API error` carrying the status and body. -/
def makeAuthenticatedRequest (st : ClientState) (first retryResp : HttpResponse)
    (authOracle : Except String TokenData) (now : Int) : RequestOutcome :=
  if !truthy st.accessToken then
    { result := .error "Not authenticated", state := st, requests := 0, auths := 0 }
  else
    let response := first
    if response.status = 401 then
      -- For service account tokens, don't retry - they don't expire
      if truthy st.config.serviceAccountToken then
        { result := .error ("Keap API error (service account): " ++
            toString response.status ++ " " ++ response.body)
          state := st, requests := 1, auths := 0 }
      else
        -- Token expired, try to refresh and retry
        let st1 : ClientState := { st with accessToken := none }
        let auth := ensureAuthenticated st1 authOracle now
        match auth.result with
        | .error e =>
          { result := .error e, state := auth.state, requests := 1, auths := auth.auths }
        | .ok _ =>
          -- Retry the request with new token (returned with no `ok` check)
          { result := .ok retryResp, state := auth.state, requests := 2, auths := auth.auths }
    else if !response.isOk then
      { result := .error ("Keap API error: " ++ toString response.status ++ " " ++ response.body)
        state := st, requests := 1, auths := 0 }
    else
      { result := .ok response, state := st, requests := 1, auths := 0 }

/-- `KeapContact` from `types.ts` (an `email_addresses` entry is
`{email, field}`); an absent `email_addresses` array is modelled as `[]`
(the code treats the two identically). -/
structure EmailAddress where
  email : String
  field : String
deriving DecidableEq, Repr

structure KeapContact where
  id : Nat
  email_addresses : List EmailAddress
  given_name : Option String := none
  family_name : Option String := none
  tag_ids : Option (List Nat) := none
deriving DecidableEq, Repr

/-- `KeapClient.getContactById` (`keap-client.ts:103-119`).  `parse` models
`response.json()` (`Except.error` when the body fails to parse).
`ensureAuthenticated` runs before the `try` block, so its failure
propagates.  Inside the block a thrown error — including the
`Keap API error` thrown for a non-ok status — is caught and turned into
`null`; but the success path is `return response.json()` WITHOUT `await`,
so the returned promise adopts the parse promise's state after the
function body (and hence the `catch`) has finished: a parse rejection
bypasses the `catch` and propagates to the caller. -/
def getContactById (st : ClientState) (first retryResp : HttpResponse)
    (authOracle : Except String TokenData) (now : Int)
    (parse : HttpResponse → Except String KeapContact) :
    Except String (Option KeapContact) × ClientState :=
  let ensure := ensureAuthenticated st authOracle now
  match ensure.result with
  | .error e => (.error e, ensure.state)
  | .ok _ =>
    let out := makeAuthenticatedRequest ensure.state first retryResp authOracle now
    match out.result with
    | .error _ => (.ok none, out.state)  -- thrown, caught by the catch → null
    | .ok response =>
      if !response.isOk then
        if response.status = 404 then
          (.ok none, out.state)
        else
          (.ok none, out.state)  -- `throw` at line 112, caught at 115 → null
      else
        match parse response with
        | .ok contact => (.ok (some contact), out.state)
        | .error e => (.error e, out.state)  -- un-awaited rejection, not caught

/-- One observable state transition of a client instance: the state change
of a `makeAuthenticatedRequest` or an `ensureAuthenticated` call (the only
code paths that write `accessToken`/`tokenExpiry`; `config` is read-only). -/
inductive Step : ClientState → ClientState → Prop
  | request (st : ClientState) (first retryResp : HttpResponse)
      (authOracle : Except String TokenData) (now : Int) :
      Step st (makeAuthenticatedRequest st first retryResp authOracle now).state
  | ensure (st : ClientState) (authOracle : Except String TokenData) (now : Int) :
      Step st (ensureAuthenticated st authOracle now).state

/-- A state reachable from another over the instance's lifetime. -/
def Reachable : ClientState → ClientState → Prop :=
  Relation.ReflTransGen Step

theorem authenticateApp_config (st : ClientState) (o : Except String TokenData) (now : Int) :
    (authenticateApp st o now).state.config = st.config := by
  unfold authenticateApp
  split
  · rfl
  · cases o <;> rfl

theorem ensureAuthenticated_config (st : ClientState) (o : Except String TokenData) (now : Int) :
    (ensureAuthenticated st o now).state.config = st.config := by
  unfold ensureAuthenticated
  split
  · rfl
  · split
    · exact authenticateApp_config ..
    · rfl

theorem makeAuthenticatedRequest_config (st : ClientState) (first retryResp : HttpResponse)
    (o : Except String TokenData) (now : Int) :
    (makeAuthenticatedRequest st first retryResp o now).state.config = st.config := by
  simp only [makeAuthenticatedRequest]
  repeat' split
  all_goals first
    | rfl
    | exact ensureAuthenticated_config { st with accessToken := none } o now

theorem step_config {st st' : ClientState} (h : Step st st') : st'.config = st.config := by
  cases h with
  | request first retryResp authOracle now => exact makeAuthenticatedRequest_config ..
  | ensure authOracle now => exact ensureAuthenticated_config ..

theorem reachable_config {st st' : ClientState} (h : Reachable st st') :
    st'.config = st.config := by
  induction h with
  | refl => rfl
  | tail _ hstep ih => rw [step_config hstep, ih]

theorem construct_production_allowWrite (userCfg : KeapClientConfig) (now : Int)
    (st : ClientState) (henv : userCfg.environment.getD .production = .production)
    (hok : construct userCfg now = .ok st) :
    st.config.allowWrite = false := by
  unfold construct at hok
  rw [henv] at hok
  simp only [reduceIte] at hok
  split at hok
  · exact absurd hok (by simp)
  · split at hok <;> · injection hok with h; rw [← h]

/-- C1: for every configuration whose (resolved) environment is
`production` — supplied explicitly or by default — the constructed client's
effective `allowWrite` flag is `false` regardless of the caller-supplied
`allowWrite` value, and in every state reachable over the instance's
lifetime `getStatus` reports `readOnlyMode = true`. -/
theorem claim_c1_production_readonly (userCfg : KeapClientConfig) (now : Int)
    (st st' : ClientState) (now' : Int)
    (henv : userCfg.environment.getD .production = .production)
    (hok : construct userCfg now = .ok st)
    (hreach : Reachable st st') :
    st'.config.allowWrite = false ∧ (getStatus st' now').readOnlyMode = true := by
  have h1 : st.config.allowWrite = false :=
    construct_production_allowWrite userCfg now st henv hok
  have h2 : st'.config = st.config := reachable_config hreach
  refine ⟨by rw [h2, h1], ?_⟩
  simp [getStatus, h2, h1]

/-- A concrete production configuration that asks for `allowWrite := true`. -/
def prodWriteCfg : KeapClientConfig :=
  { serviceAccountToken := some "svc-token"
    environment := some .production
    allowWrite := some true }

/-- The state `construct prodWriteCfg 0` produces. -/
def prodWriteState : ClientState :=
  { config := { clientId := none, clientSecret := none
                serviceAccountToken := some "svc-token"
                environment := .production, allowWrite := false
                baseUrl := "https://api.infusionsoft.com/crm/rest/v1" }
    accessToken := some "svc-token"
    tokenExpiry := some (365 * 24 * 60 * 60 * 1000) }

theorem claim_c1_production_readonly_witness :
    prodWriteCfg.environment.getD .production = .production ∧
    construct prodWriteCfg 0 = .ok prodWriteState ∧
    (prodWriteState.config.allowWrite = false ∧
      (getStatus prodWriteState 5 |>.readOnlyMode) = true) :=
  ⟨rfl, rfl,
    claim_c1_production_readonly prodWriteCfg 0 prodWriteState prodWriteState 5
      rfl rfl Relation.ReflTransGen.refl⟩

/-- C6: the expiry check treats a credential as expired exactly when its
expiry timestamp is at most 5 minutes after now; in particular an expiry
less than 5 minutes in the future is expired and one exactly 5 minutes and
1 second in the future is not. -/
theorem claim_c6_expiry_buffer (now e1 e2 : Int)
    (h1 : e1 < now + 5 * 60 * 1000) (h2 : e2 = now + 301 * 1000) :
    isTokenExpired (some e1) now = true ∧ isTokenExpired (some e2) now = false ∧
    (∀ e : Int, isTokenExpired (some e) now = true ↔ e ≤ now + 5 * 60 * 1000) := by
  refine ⟨?_, ?_, fun e => ?_⟩ <;>
    simp only [isTokenExpired, decide_eq_true_eq, decide_eq_false_iff_not] <;> omega

theorem claim_c6_expiry_buffer_witness :
    ((0 : Int) < 0 + 5 * 60 * 1000) ∧ ((301000 : Int) = 0 + 301 * 1000) ∧
    (isTokenExpired (some 0) 0 = true ∧ isTokenExpired (some 301000) 0 = false ∧
      (∀ e : Int, isTokenExpired (some e) 0 = true ↔ e ≤ 0 + 5 * 60 * 1000)) :=
  ⟨by decide, by decide, claim_c6_expiry_buffer 0 0 301000 (by decide) (by decide)⟩

theorem truthy_none : truthy none = false := rfl

/-- C3: on an HTTP 401, in service-account mode the call fails immediately
with an API error, with no retry and no re-authentication; in OAuth mode the
cached credential is invalidated, exactly one re-authentication is
performed, and on its success the same request is retried exactly once (on
its failure no retry happens and the credential stays cleared). -/
theorem claim_c3_401_retry_policy (st : ClientState) (first retryResp : HttpResponse)
    (authOracle : Except String TokenData) (now : Int)
    (htok : truthy st.accessToken = true) (h401 : first.status = 401) :
    (truthy st.config.serviceAccountToken = true →
      makeAuthenticatedRequest st first retryResp authOracle now =
        { result := .error ("Keap API error (service account): " ++
            toString first.status ++ " " ++ first.body)
          state := st, requests := 1, auths := 0 }) ∧
    (truthy st.config.serviceAccountToken = false →
      truthy st.config.clientId = true → truthy st.config.clientSecret = true →
      (∀ td, authOracle = .ok td →
        makeAuthenticatedRequest st first retryResp authOracle now =
          { result := .ok retryResp
            state := { st with accessToken := some td.access_token
                               tokenExpiry := some (now + td.expires_in * 1000) }
            requests := 2, auths := 1 }) ∧
      (∀ e, authOracle = .error e →
        makeAuthenticatedRequest st first retryResp authOracle now =
          { result := .error e
            state := { st with accessToken := none }
            requests := 1, auths := 1 })) := by
  constructor
  · intro hsvc
    simp [makeAuthenticatedRequest, htok, h401, hsvc]
  · intro hsvc hid hsec
    constructor
    · intro td hora
      simp [makeAuthenticatedRequest, ensureAuthenticated, authenticateApp,
        htok, h401, hsvc, hid, hsec, hora, truthy_none]
    · intro e hora
      simp [makeAuthenticatedRequest, ensureAuthenticated, authenticateApp,
        htok, h401, hsvc, hid, hsec, hora, truthy_none]

/-- A client state in service-account mode with a live credential. -/
def svcState : ClientState :=
  { config := { clientId := none, clientSecret := none
                serviceAccountToken := some "svc-token"
                environment := .production, allowWrite := false
                baseUrl := "https://api.infusionsoft.com/crm/rest/v1" }
    accessToken := some "svc-token"
    tokenExpiry := some (365 * 24 * 60 * 60 * 1000) }

theorem claim_c3_401_retry_policy_witness :
    truthy svcState.accessToken = true ∧
    (HttpResponse.mk 401 "bad token").status = 401 ∧
    ((truthy svcState.config.serviceAccountToken = true →
      makeAuthenticatedRequest svcState (HttpResponse.mk 401 "bad token")
          (HttpResponse.mk 200 "ok") (.ok (TokenData.mk "new" 3600)) 0 =
        { result := .error ("Keap API error (service account): " ++
            toString (HttpResponse.mk 401 "bad token").status ++ " " ++
            (HttpResponse.mk 401 "bad token").body)
          state := svcState, requests := 1, auths := 0 }) ∧
    (truthy svcState.config.serviceAccountToken = false →
      truthy svcState.config.clientId = true → truthy svcState.config.clientSecret = true →
      (∀ td, (Except.ok (TokenData.mk "new" 3600) : Except String TokenData) = .ok td →
        makeAuthenticatedRequest svcState (HttpResponse.mk 401 "bad token")
            (HttpResponse.mk 200 "ok") (.ok (TokenData.mk "new" 3600)) 0 =
          { result := .ok (HttpResponse.mk 200 "ok")
            state := { svcState with accessToken := some td.access_token
                                     tokenExpiry := some (0 + td.expires_in * 1000) }
            requests := 2, auths := 1 }) ∧
      (∀ e, (Except.ok (TokenData.mk "new" 3600) : Except String TokenData) = .error e →
        makeAuthenticatedRequest svcState (HttpResponse.mk 401 "bad token")
            (HttpResponse.mk 200 "ok") (.ok (TokenData.mk "new" 3600)) 0 =
          { result := .error e
            state := { svcState with accessToken := none }
            requests := 1, auths := 1 }))) :=
  ⟨rfl, rfl,
    claim_c3_401_retry_policy svcState (HttpResponse.mk 401 "bad token")
      (HttpResponse.mk 200 "ok") (.ok (TokenData.mk "new" 3600)) 0 rfl rfl⟩

/-- An OAuth-mode (client-id/secret) client state with a live credential. -/
def oauthState : ClientState :=
  { config := { clientId := some "id", clientSecret := some "secret"
                serviceAccountToken := none
                environment := .production, allowWrite := false
                baseUrl := "https://api.infusionsoft.com/crm/rest/v1" }
    accessToken := some "tok"
    tokenExpiry := some 0 }

/-- C2 fails on the code: after a 401 and a successful re-authentication,
the retried request's response is returned to the caller with NO status
check, so a non-2xx, non-401 retried response (here a 500) does not make
the call fail. -/
theorem claim_c2_counterexample :
    (makeAuthenticatedRequest oauthState (HttpResponse.mk 401 "expired")
        (HttpResponse.mk 500 "oops") (.ok (TokenData.mk "new" 3600)) 0).result =
      .ok (HttpResponse.mk 500 "oops") ∧
    (HttpResponse.mk 500 "oops").isOk = false ∧
    (HttpResponse.mk 500 "oops").status ≠ 401 := by
  refine ⟨rfl, rfl, by decide⟩

/-- C2 amended: the call either fails or returns a response; a non-2xx,
non-401 status on the INITIAL response always fails with an API error
carrying the numeric status and the body text, and a 2xx initial response
is returned; but after a 401 and a successful re-authentication the retried
request's response is returned as-is, with no status check at all. -/
theorem claim_c2_api_error_amended (st : ClientState) (first retryResp : HttpResponse)
    (authOracle : Except String TokenData) (now : Int)
    (htok : truthy st.accessToken = true) :
    (first.status ≠ 401 → first.isOk = false →
      (makeAuthenticatedRequest st first retryResp authOracle now).result =
        .error ("Keap API error: " ++ toString first.status ++ " " ++ first.body)) ∧
    (first.isOk = true →
      (makeAuthenticatedRequest st first retryResp authOracle now).result = .ok first) ∧
    (first.status = 401 → truthy st.config.serviceAccountToken = false →
      (ensureAuthenticated { st with accessToken := none } authOracle now).result = .ok () →
      (makeAuthenticatedRequest st first retryResp authOracle now).result = .ok retryResp) := by
  refine ⟨?_, ?_, ?_⟩
  · intro h401 hok
    simp [makeAuthenticatedRequest, htok, h401, hok]
  · intro hok
    have h401 : ¬ first.status = 401 := by
      simp only [HttpResponse.isOk, Bool.and_eq_true, decide_eq_true_eq] at hok
      omega
    simp [makeAuthenticatedRequest, htok, h401, hok]
  · intro h401 hsvc hens
    simp [makeAuthenticatedRequest, htok, h401, hsvc, hens]

theorem claim_c2_api_error_amended_witness :
    truthy oauthState.accessToken = true ∧
    (((HttpResponse.mk 503 "down").status ≠ 401 → (HttpResponse.mk 503 "down").isOk = false →
      (makeAuthenticatedRequest oauthState (HttpResponse.mk 503 "down")
          (HttpResponse.mk 200 "ok") (.ok (TokenData.mk "new" 3600)) 0).result =
        .error ("Keap API error: " ++ toString (HttpResponse.mk 503 "down").status ++ " " ++
          (HttpResponse.mk 503 "down").body)) ∧
    ((HttpResponse.mk 503 "down").isOk = true →
      (makeAuthenticatedRequest oauthState (HttpResponse.mk 503 "down")
          (HttpResponse.mk 200 "ok") (.ok (TokenData.mk "new" 3600)) 0).result =
        .ok (HttpResponse.mk 503 "down")) ∧
    ((HttpResponse.mk 503 "down").status = 401 →
      truthy oauthState.config.serviceAccountToken = false →
      (ensureAuthenticated { oauthState with accessToken := none }
          (.ok (TokenData.mk "new" 3600)) 0).result = .ok () →
      (makeAuthenticatedRequest oauthState (HttpResponse.mk 503 "down")
          (HttpResponse.mk 200 "ok") (.ok (TokenData.mk "new" 3600)) 0).result =
        .ok (HttpResponse.mk 200 "ok"))) :=
  ⟨rfl,
    claim_c2_api_error_amended oauthState (HttpResponse.mk 503 "down")
      (HttpResponse.mk 200 "ok") (.ok (TokenData.mk "new" 3600)) 0 rfl⟩

/-- A configuration supplying only a pre-issued service-account token. -/
def svcOnlyCfg : KeapClientConfig := { serviceAccountToken := some "svc-token" }

/-- C8 fails on the code: the service-account credential gets a synthetic
expiry of construction time + 1 year (not "never"), so at one year after
construction the expiry check already treats it as expired (the buffer even
makes that happen 5 minutes earlier). -/
theorem claim_c8_counterexample :
    (construct svcOnlyCfg 0).map
        (fun st => isTokenExpired st.tokenExpiry (365 * 24 * 60 * 60 * 1000)) =
      .ok true := rfl

theorem step_service_fixed {st st' : ClientState}
    (hsvc : truthy st.config.serviceAccountToken = true) (h : Step st st') : st' = st := by
  cases h with
  | request first retryResp authOracle now =>
    simp only [makeAuthenticatedRequest]
    repeat' split
    all_goals first
      | rfl
      | simp_all
  | ensure authOracle now =>
    simp only [ensureAuthenticated]
    repeat' split
    all_goals first
      | rfl
      | simp_all

theorem reachable_service_fixed {st st' : ClientState}
    (hsvc : truthy st.config.serviceAccountToken = true) (h : Reachable st st') :
    st' = st := by
  induction h with
  | refl => rfl
  | tail _ hstep ih =>
    rw [ih] at hstep
    exact step_service_fixed hsvc hstep

theorem construct_service_state (userCfg : KeapClientConfig) (now : Int) (st : ClientState)
    (hsvc : truthy userCfg.serviceAccountToken = true)
    (hok : construct userCfg now = .ok st) :
    st.config.serviceAccountToken = userCfg.serviceAccountToken ∧
    st.accessToken = userCfg.serviceAccountToken ∧
    st.tokenExpiry = some (now + 365 * 24 * 60 * 60 * 1000) := by
  unfold construct at hok
  by_cases hprod : (userCfg.environment.getD .production) = Environment.production
  all_goals
    simp only [hprod, hsvc, Bool.not_true, Bool.false_and, Bool.false_eq_true,
      if_true, if_false, reduceIte] at hok
  all_goals
    injection hok with h
  all_goals
    rw [← h]
  all_goals
    exact ⟨rfl, rfl, rfl⟩

/-- C8 amended: a pre-issued service-account token is adopted as the
credential at construction and kept for the instance's whole lifetime, and
`ensureAuthenticated` returns with no token-endpoint call; but the
credential is treated as unexpired only at instants earlier than 5 minutes
before the synthetic one-year expiry (construction time + 365 days), not
forever. -/
theorem claim_c8_service_token_amended (userCfg : KeapClientConfig) (now : Int)
    (st st' : ClientState)
    (hsvc : truthy userCfg.serviceAccountToken = true)
    (hok : construct userCfg now = .ok st)
    (hreach : Reachable st st') :
    st.accessToken = userCfg.serviceAccountToken ∧
    st' = st ∧
    (∀ (authOracle : Except String TokenData) (now' : Int),
      ensureAuthenticated st' authOracle now' =
        { result := .ok (), state := st', auths := 0 }) ∧
    (∀ t : Int, t < now + 365 * 24 * 60 * 60 * 1000 - 5 * 60 * 1000 →
      isTokenExpired st'.tokenExpiry t = false) := by
  obtain ⟨hcfg, htok, hexp⟩ := construct_service_state userCfg now st hsvc hok
  have hsvc' : truthy st.config.serviceAccountToken = true := by rw [hcfg]; exact hsvc
  have hfix : st' = st := reachable_service_fixed hsvc' hreach
  refine ⟨htok, hfix, ?_, ?_⟩
  · intro authOracle now'
    rw [hfix]
    simp [ensureAuthenticated, hsvc']
  · intro t ht
    rw [hfix, hexp]
    simp only [isTokenExpired, decide_eq_false_iff_not]
    omega

theorem claim_c8_service_token_amended_witness :
    truthy svcOnlyCfg.serviceAccountToken = true ∧
    construct svcOnlyCfg 0 = .ok svcState ∧
    (svcState.accessToken = svcOnlyCfg.serviceAccountToken ∧
     svcState = svcState ∧
     (∀ (authOracle : Except String TokenData) (now' : Int),
       ensureAuthenticated svcState authOracle now' =
         { result := .ok (), state := svcState, auths := 0 }) ∧
     (∀ t : Int, t < 0 + 365 * 24 * 60 * 60 * 1000 - 5 * 60 * 1000 →
       isTokenExpired svcState.tokenExpiry t = false)) :=
  ⟨rfl, rfl,
    claim_c8_service_token_amended svcOnlyCfg 0 svcState svcState rfl rfl
      Relation.ReflTransGen.refl⟩

/-- C10 fails on the code: on a successful (2xx) response whose body fails
to parse, the `return response.json()` promise is not awaited inside the
`try`, so its rejection bypasses the `catch` and propagates to the caller —
`getContactById` does not return `null` there. -/
theorem claim_c10_counterexample :
    (getContactById svcState (HttpResponse.mk 200 "not json")
        (HttpResponse.mk 200 "ok") (.error "no oracle") 0
        (fun _ => .error "Unexpected token")).1 =
      .error "Unexpected token" ∧
    (HttpResponse.mk 200 "not json").isOk = true :=
  ⟨rfl, rfl⟩

/-- C10 amended: once the initial `ensureAuthenticated` has succeeded,
every failure of the authenticated request itself yields `null` — any
thrown error and any non-2xx response, not just 404 — and on a 2xx
response the parsed contact is returned; but a JSON-parse failure of a 2xx
response body is not caught (the parse promise is returned without
`await`) and propagates to the caller. -/
theorem claim_c10_contact_null_amended (st : ClientState) (first retryResp : HttpResponse)
    (authOracle : Except String TokenData) (now : Int)
    (parse : HttpResponse → Except String KeapContact)
    (hauth : (ensureAuthenticated st authOracle now).result = .ok ()) :
    (getContactById st first retryResp authOracle now parse).1 =
      match (makeAuthenticatedRequest (ensureAuthenticated st authOracle now).state
          first retryResp authOracle now).result with
      | .error _ => .ok none
      | .ok r => if r.isOk then (parse r).map some else .ok none := by
  simp only [getContactById, hauth]
  cases hres : (makeAuthenticatedRequest (ensureAuthenticated st authOracle now).state
      first retryResp authOracle now).result with
  | error e => simp
  | ok r =>
    by_cases hok : r.isOk = true
    · simp only [hok, Bool.not_true, Bool.false_eq_true, if_false, if_true, reduceIte]
      cases parse r <;> simp [Except.map]
    · simp only [Bool.not_eq_true] at hok
      simp only [hok, Bool.not_false, if_true]
      split <;> rfl

theorem claim_c10_contact_null_amended_witness :
    (ensureAuthenticated svcState (.error "no oracle") 0).result = .ok () ∧
    (getContactById svcState (HttpResponse.mk 404 "not found") (HttpResponse.mk 200 "ok")
        (.error "no oracle") 0 (fun _ => Except.error "bad json")).1 =
      match (makeAuthenticatedRequest
          (ensureAuthenticated svcState (.error "no oracle") 0).state
          (HttpResponse.mk 404 "not found") (HttpResponse.mk 200 "ok")
          (.error "no oracle") 0).result with
      | .error _ => .ok none
      | .ok r =>
        if r.isOk then
          ((fun _ => (Except.error "bad json" : Except String KeapContact)) r).map some
        else .ok none :=
  ⟨rfl,
    claim_c10_contact_null_amended svcState (HttpResponse.mk 404 "not found")
      (HttpResponse.mk 200 "ok") (.error "no oracle") 0
      (fun _ => Except.error "bad json") rfl⟩

/-- `KeapTag` from `types.ts`. -/
structure KeapTag where
  id : Nat
  name : String
  description : Option String := none
deriving DecidableEq, Repr

/-- `KeapContactTag` from `types.ts`. -/
structure KeapContactTag where
  tag : KeapTag
  date_applied : Option String := none
deriving DecidableEq, Repr

/-- `UserEntitlement` from `types.ts` (the optional `products` field is
never produced by this client and is omitted). -/
structure UserEntitlement where
  contactId : Nat
  email : String
  name : String
  tags : List String
  rawTags : List KeapContactTag
deriving DecidableEq, Repr

/-- One entry of `BatchEntitlementResponse.results` from `types.ts`. -/
structure BatchResultEntry where
  email : String
  entitlements : Option UserEntitlement
  error : Option String := none
deriving DecidableEq, Repr

/-- `BatchEntitlementResponse.summary` from `types.ts`. -/
structure BatchSummary where
  total : Nat
  found : Nat
  errors : Nat
deriving DecidableEq, Repr

/-- `BatchEntitlementResponse` from `types.ts`. -/
structure BatchEntitlementResponse where
  results : List BatchResultEntry
  summary : BatchSummary
deriving DecidableEq, Repr

/-- The loop of `getBatchEntitlements` (`keap-client.ts:129-145`): per email
call the single-user path (`resolve` abstracts `getUserEntitlements`,
`Except.error` a thrown error), record the outcome, count found/errors and
continue.  Returns (results, found, errors). -/
def batchLoop (resolve : String → Except String (Option UserEntitlement)) :
    List String → List BatchResultEntry × Nat × Nat
  | [] => ([], 0, 0)
  | email :: rest =>
    match resolve email with
    | .ok ents =>
      let (results, found, errors) := batchLoop resolve rest
      ({ email := email, entitlements := ents, error := none } :: results,
       (if ents.isSome then 1 else 0) + found, errors)
    | .error e =>
      let (results, found, errors) := batchLoop resolve rest
      ({ email := email, entitlements := none, error := some e } :: results,
       found, 1 + errors)

/-- `KeapClient.getBatchEntitlements` (`keap-client.ts:124-155`). -/
def getBatchEntitlements (resolve : String → Except String (Option UserEntitlement))
    (emails : List String) : BatchEntitlementResponse :=
  let (results, found, errors) := batchLoop resolve emails
  { results := results
    summary := { total := emails.length, found := found, errors := errors } }

theorem batchLoop_spec (resolve : String → Except String (Option UserEntitlement))
    (emails : List String) :
    (batchLoop resolve emails).1.map (·.email) = emails ∧
    (batchLoop resolve emails).2.1 =
      ((batchLoop resolve emails).1.filter (fun r => r.entitlements.isSome)).length ∧
    (batchLoop resolve emails).2.2 =
      ((batchLoop resolve emails).1.filter (fun r => r.error.isSome)).length ∧
    (∀ r ∈ (batchLoop resolve emails).1, r.error.isSome → r.entitlements = none) := by
  induction emails with
  | nil => exact ⟨rfl, rfl, rfl, by intro r hr; cases hr⟩
  | cons email rest ih =>
    obtain ⟨ih1, ih2, ih3, ih4⟩ := ih
    cases hres : resolve email with
    | ok ents =>
      refine ⟨?_, ?_, ?_, ?_⟩ <;>
        simp only [batchLoop, hres, List.map_cons, List.filter_cons, List.length_cons,
          List.mem_cons]
      · rw [ih1]
      · cases ents <;> simp [ih2] <;> omega
      · simpa using ih3
      · rintro r (rfl | hr)
        · simp
        · exact ih4 r hr
    | error e =>
      refine ⟨?_, ?_, ?_, ?_⟩ <;>
        simp only [batchLoop, hres, List.map_cons, List.filter_cons, List.length_cons,
          List.mem_cons]
      · rw [ih1]
      · simpa using ih2
      · simp [ih3] <;> omega
      · rintro r (rfl | hr)
        · simp
        · exact ih4 r hr

/-- The three per-email outcomes (found / not-found / errored) partition
any batch result list in which errored entries carry no entitlements. -/
theorem batch_three_way_partition (rs : List BatchResultEntry)
    (h : ∀ r ∈ rs, r.error.isSome = true → r.entitlements = none) :
    (rs.filter (fun r => r.entitlements.isSome)).length +
    (rs.filter (fun r => r.entitlements.isNone && r.error.isNone)).length +
    (rs.filter (fun r => r.error.isSome)).length = rs.length := by
  induction rs with
  | nil => rfl
  | cons r rest ih =>
    have hrest := ih (fun x hx => h x (List.mem_cons_of_mem r hx))
    cases hE : r.error with
    | some e =>
      have hent : r.entitlements = none := h r (List.mem_cons_self r rest) (by rw [hE]; rfl)
      simp [List.filter_cons, hE, hent]
      omega
    | none =>
      cases hS : r.entitlements with
      | some v =>
        simp [List.filter_cons, hE, hS]
        omega
      | none =>
        simp [List.filter_cons, hE, hS]
        omega

/-- C4: `getBatchEntitlements` over N emails returns exactly N entries, one
per input email in order; `summary.total = N`; `summary.found` counts the
entries with non-null entitlements; `summary.errors` counts the entries
carrying an error; and found + (entries with null entitlements and no
error) + errors = N. -/
theorem claim_c4_batch_counts (resolve : String → Except String (Option UserEntitlement))
    (emails : List String) :
    (getBatchEntitlements resolve emails).results.length = emails.length ∧
    (getBatchEntitlements resolve emails).results.map (·.email) = emails ∧
    (getBatchEntitlements resolve emails).summary.total = emails.length ∧
    (getBatchEntitlements resolve emails).summary.found =
      ((getBatchEntitlements resolve emails).results.filter
        (fun r => r.entitlements.isSome)).length ∧
    (getBatchEntitlements resolve emails).summary.errors =
      ((getBatchEntitlements resolve emails).results.filter
        (fun r => r.error.isSome)).length ∧
    (getBatchEntitlements resolve emails).summary.found +
      ((getBatchEntitlements resolve emails).results.filter
        (fun r => r.entitlements.isNone && r.error.isNone)).length +
      (getBatchEntitlements resolve emails).summary.errors = emails.length := by
  obtain ⟨h1, h2, h3, h4⟩ := batchLoop_spec resolve emails
  have hlen : (batchLoop resolve emails).1.length = emails.length := by
    have hm := congrArg List.length h1
    simpa using hm
  refine ⟨hlen, h1, rfl, h2, h3, ?_⟩
  show (batchLoop resolve emails).2.1 +
    ((batchLoop resolve emails).1.filter (fun r => r.entitlements.isNone && r.error.isNone)).length +
    (batchLoop resolve emails).2.2 = emails.length
  rw [h2, h3, ← hlen]
  exact batch_three_way_partition (batchLoop resolve emails).1 h4

/-- The contact page the remote returns to `getContacts({limit, offset})`
(`keap-client.ts:340-374`): the slice of the remote collection starting at
`offset`, at most `limit` long. -/
def contactsPage (remote : List KeapContact) (limit offset : Nat) : List KeapContact :=
  (remote.drop offset).take limit

/-- The loop of `KeapClient.fetchAllContactsPaginated` (`keap-client.ts:
442-450`) over a remote collection, run on explicit fuel (the source's
`while (hasMore)` loop; one fuel unit per iteration).  Per iteration: fetch
the page at `offset`; if it is non-empty, yield it and advance `offset` by
its length; continue iff the page was a full batch.  The returned list
holds the yielded batches in order. -/
def fetchPagesFuel (batchSize : Nat) (remote : List KeapContact) :
    Nat → Nat → List (List KeapContact)
  | _, 0 => []
  | offset, fuel + 1 =>
    let page := contactsPage remote batchSize offset
    let yielded := if 0 < page.length then [page] else []
    if page.length = batchSize then
      yielded ++ fetchPagesFuel batchSize remote (offset + page.length) fuel
    else
      yielded

/-- `KeapClient.fetchAllContactsPaginated` (`keap-client.ts:434-451`): the
async generator modelled as the finite list of batches it yields.
`remote.length + 1` fuel strictly dominates the iteration count whenever
`batchSize > 0` (each continuing iteration consumes `batchSize ≥ 1`
contacts); for `batchSize = 0` the source loops forever yielding nothing
and the model likewise yields nothing. -/
def fetchAllContactsPaginated (batchSize : Nat) (remote : List KeapContact) :
    List (List KeapContact) :=
  fetchPagesFuel batchSize remote 0 (remote.length + 1)

theorem fetchPagesFuel_shift (batchSize : Nat) :
    ∀ (fuel : Nat) (remote : List KeapContact) (offset : Nat),
    fetchPagesFuel batchSize remote offset fuel =
      fetchPagesFuel batchSize (remote.drop offset) 0 fuel := by
  intro fuel
  induction fuel with
  | zero => intro remote offset; rfl
  | succ fuel ih =>
    intro remote offset
    simp only [fetchPagesFuel, contactsPage, List.drop_zero, Nat.zero_add, Nat.add_zero]
    rw [ih remote, ih (remote.drop offset), List.drop_drop]

theorem fetchPagesFuel_sizes (B : Nat) (hB : 0 < B) :
    ∀ (k r : Nat) (remote : List KeapContact) (fuel : Nat), r < B →
    remote.length = k * B + r → k < fuel →
    (fetchPagesFuel B remote 0 fuel).map List.length =
      List.replicate k B ++ (if r = 0 then [] else [r]) := by
  intro k
  induction k with
  | zero =>
    intro r remote fuel hr hlen hfuel
    cases fuel with
    | zero => omega
    | succ fuel =>
      have hpl : (contactsPage remote B 0).length = r := by
        simp only [contactsPage, List.drop_zero, List.length_take]
        omega
      simp only [fetchPagesFuel, hpl]
      have hne : ¬ r = B := by omega
      rw [if_neg hne]
      by_cases hz : r = 0
      · simp [hz]
      · have : 0 < r := Nat.pos_of_ne_zero hz
        simp [this, hz, hpl]
  | succ k ih =>
    intro r remote fuel hr hlen hfuel
    cases fuel with
    | zero => omega
    | succ fuel =>
      have hlen' : remote.length = k * B + B + r := by
        rw [hlen, Nat.succ_mul]
      have hpl : (contactsPage remote B 0).length = B := by
        simp only [contactsPage, List.drop_zero, List.length_take]
        omega
      have hdrop : (remote.drop B).length = k * B + r := by
        rw [List.length_drop]
        omega
      have h1 : fetchPagesFuel B remote 0 (fuel + 1) =
          contactsPage remote B 0 :: fetchPagesFuel B remote (0 + B) fuel := by
        simp only [fetchPagesFuel]
        rw [hpl, if_pos rfl, if_pos hB]
        rfl
      rw [h1, Nat.zero_add, fetchPagesFuel_shift, List.map_cons,
        ih r (remote.drop B) fuel hr hdrop (by omega), hpl,
        List.replicate_succ, List.cons_append]

/-- C5: with batch size `B > 0`, over a remote collection of size exactly
`k*B` the paginated fetch yields exactly `k` batches each of size `B` and
terminates; over size `k*B + r` with `0 < r < B` it yields `k` batches of
size `B` plus one final batch of size `r` and terminates. -/
theorem claim_c5_pagination_batches (B k r : Nat) (remote : List KeapContact)
    (hB : 0 < B) (hr : r < B) (hlen : remote.length = k * B + r) :
    (fetchAllContactsPaginated B remote).map List.length =
      List.replicate k B ++ (if r = 0 then [] else [r]) ∧
    (r = 0 → (fetchAllContactsPaginated B remote).length = k) ∧
    (0 < r → (fetchAllContactsPaginated B remote).length = k + 1) := by
  have hfuel : k < remote.length + 1 := by
    have : k ≤ k * B := Nat.le_mul_of_pos_right k hB
    omega
  have hmain := fetchPagesFuel_sizes B hB k r remote (remote.length + 1) hr hlen hfuel
  refine ⟨hmain, ?_, ?_⟩
  · intro hz
    have := congrArg List.length hmain
    simpa [hz] using this
  · intro hpos
    have := congrArg List.length hmain
    have hz : ¬ r = 0 := by omega
    simpa [hz] using this

/-- A contact with no email addresses, used as a generic list element. -/
def blankContact (n : Nat) : KeapContact := { id := n, email_addresses := [] }

theorem claim_c5_pagination_batches_witness :
    0 < 2 ∧ 1 < 2 ∧
    (List.map blankContact [0, 1, 2, 3, 4]).length = 2 * 2 + 1 ∧
    ((fetchAllContactsPaginated 2 (List.map blankContact [0, 1, 2, 3, 4])).map List.length =
      List.replicate 2 2 ++ (if 1 = 0 then [] else [1]) ∧
    (1 = 0 → (fetchAllContactsPaginated 2 (List.map blankContact [0, 1, 2, 3, 4])).length = 2) ∧
    (0 < 1 → (fetchAllContactsPaginated 2 (List.map blankContact [0, 1, 2, 3, 4])).length = 2 + 1)) :=
  ⟨by decide, by decide, by decide,
    claim_c5_pagination_batches 2 2 1 (List.map blankContact [0, 1, 2, 3, 4])
      (by decide) (by decide) (by decide)⟩

theorem fetchPagesFuel_nonempty (B : Nat) (remote : List KeapContact) :
    ∀ (fuel offset : Nat) (p : List KeapContact),
    p ∈ fetchPagesFuel B remote offset fuel → p ≠ [] := by
  intro fuel
  induction fuel with
  | zero => intro offset p hp; cases hp
  | succ fuel ih =>
    intro offset p hp
    simp only [fetchPagesFuel] at hp
    have hyield : ∀ q : List KeapContact,
        q ∈ (if 0 < (contactsPage remote B offset).length
              then [contactsPage remote B offset] else []) → q ≠ [] := by
      intro q hq
      split at hq
      · rename_i hlen
        rw [List.mem_singleton] at hq
        subst hq
        exact List.ne_nil_of_length_pos hlen
      · cases hq
    split at hp
    · rcases List.mem_append.1 hp with hmem | hmem
      · exact hyield p hmem
      · exact ih _ p hmem
    · exact hyield p hp

/-- C9: every batch yielded by `fetchAllContactsPaginated` is non-empty —
an empty page is never yielded, it only ends the iteration. -/
theorem claim_c9_yielded_batches_nonempty (B : Nat) (remote : List KeapContact)
    (p : List KeapContact) (hp : p ∈ fetchAllContactsPaginated B remote) :
    p ≠ [] :=
  fetchPagesFuel_nonempty B remote (remote.length + 1) 0 p hp

theorem claim_c9_yielded_batches_nonempty_witness :
    [blankContact 0] ∈ fetchAllContactsPaginated 1 [blankContact 0] ∧
    [blankContact 0] ≠ [] :=
  ⟨by decide,
    claim_c9_yielded_batches_nonempty 1 [blankContact 0] [blankContact 0] (by decide)⟩

/-- `KeapClient.extractPrimaryEmail` (`keap-client.ts:464-477`): `none` when
there are no email entries; otherwise prefer the entry whose `field` is
`EMAIL1` (its email is returned even when empty — JS checks the entry
object's truthiness, not the string's); otherwise the first entry's email,
with an empty string degraded to `null` by the trailing `|| null`. -/
def extractPrimaryEmail (c : KeapContact) : Option String :=
  if c.email_addresses.length = 0 then
    none
  else
    match c.email_addresses.find? (fun ea => ea.field == "EMAIL1") with
    | some primaryEmail => some primaryEmail.email
    | none =>
      match c.email_addresses.head? with
      | some ea => if ea.email == "" then none else some ea.email
      | none => none

/-- `KeapClient.formatContactName` (`keap-client.ts:482-486`). -/
def formatContactName (c : KeapContact) : String :=
  let firstName := c.given_name.getD ""
  let lastName := c.family_name.getD ""
  let full := (firstName ++ " " ++ lastName).trim
  if full == "" then "Unknown" else full

/-- `KeapClient.getContactTagsWithDetails` (`keap-client.ts:325-334`): the
tag-detail fetch for one contact; any thrown error degrades to the empty
list (the `data.tags || []` default is folded into the oracle's success
value). -/
def getContactTagsWithDetails (tagsOracle : Nat → Except String (List KeapContactTag))
    (contactId : Nat) : List KeapContactTag :=
  match tagsOracle contactId with
  | .ok tags => tags
  | .error _ => []

/-- `Set<string>.add` in iteration order: append the name if absent. -/
def insertName (names : List String) (n : String) : List String :=
  if n ∈ names then names else names ++ [n]

/-- `tags.forEach(tag => allEntitlementNames.add(tag))`
(`keap-client.ts:187`). -/
def insertNames (names : List String) (tags : List String) : List String :=
  tags.foldl insertName names

/-- Insertion into a sorted list under the string order, for modelling
`Array.from(set).sort()`. -/
def insertSorted (s : String) : List String → List String
  | [] => [s]
  | t :: rest => if s ≤ t then s :: t :: rest else t :: insertSorted s rest

/-- `Array.from(allEntitlementNames).sort()` (`keap-client.ts:214`). -/
def sortStrings (l : List String) : List String :=
  l.foldr insertSorted []

/-- `AllEntitlementsResponse.summary` from `types.ts`. -/
structure AllEntitlementsSummary where
  totalContacts : Nat
  contactsWithTags : Nat
  totalUniqueEntitlements : Nat
deriving DecidableEq, Repr

/-- `AllEntitlementsResponse` from `types.ts`. -/
structure AllEntitlementsResponse where
  entitlements : List UserEntitlement
  summary : AllEntitlementsSummary
  availableEntitlements : List String
deriving DecidableEq, Repr

/-- The per-contact loop of `getAllEntitlements` (`keap-client.ts:178-205`):
skip a contact with no (truthy) primary email; fetch its tags (failures
already degraded to `[]` by `getContactTagsWithDetails`); record the tag
names in the name set; push an entitlement when the contact has tags or
`includeContactsWithoutTags` is set; count the contacts with tags.
Returns (entitlements, final name set, contactsWithTags). -/
def allEntLoop (tagsOracle : Nat → Except String (List KeapContactTag))
    (includeContactsWithoutTags : Bool) :
    List KeapContact → List String → List UserEntitlement × List String × Nat
  | [], names => ([], names, 0)
  | contact :: rest, names =>
    let email := extractPrimaryEmail contact
    if truthy email then
      let rawTags := getContactTagsWithDetails tagsOracle contact.id
      let tags := rawTags.map (fun tagData => tagData.tag.name)
      let names1 := insertNames names tags
      let (ents, namesF, cnt) := allEntLoop tagsOracle includeContactsWithoutTags rest names1
      if decide (0 < tags.length) || includeContactsWithoutTags then
        ({ contactId := contact.id, email := email.getD ""
           name := formatContactName contact, tags := tags, rawTags := rawTags } :: ents,
         namesF, (if 0 < tags.length then 1 else 0) + cnt)
      else
        (ents, namesF, cnt)
    else
      allEntLoop tagsOracle includeContactsWithoutTags rest names

/-- `KeapClient.getAllEntitlements` (`keap-client.ts:161-221`).  The single
contact page `getAllContacts(limit)` retrieves (`keap-client.ts:456-459`)
is the first `limit` contacts of the remote collection. -/
def getAllEntitlements (tagsOracle : Nat → Except String (List KeapContactTag))
    (remote : List KeapContact) (limit : Nat)
    (includeContactsWithoutTags : Bool) : AllEntitlementsResponse :=
  let contacts := remote.take limit
  let (ents, names, cwt) := allEntLoop tagsOracle includeContactsWithoutTags contacts []
  { entitlements := ents
    summary := { totalContacts := contacts.length
                 contactsWithTags := cwt
                 totalUniqueEntitlements := names.length }
    availableEntitlements := sortStrings names }

/-- The tag names of one contact, failures degraded to none. -/
def contactTagNames (tagsOracle : Nat → Except String (List KeapContactTag))
    (c : KeapContact) : List String :=
  (getContactTagsWithDetails tagsOracle c.id).map (fun tagData => tagData.tag.name)

/-- Specification-side description of what one contact contributes to
`getAllEntitlements`'s entitlement list. -/
def entitlementOf (tagsOracle : Nat → Except String (List KeapContactTag))
    (includeContactsWithoutTags : Bool) (c : KeapContact) : Option UserEntitlement :=
  if truthy (extractPrimaryEmail c) then
    if decide (0 < (contactTagNames tagsOracle c).length) || includeContactsWithoutTags then
      some { contactId := c.id, email := (extractPrimaryEmail c).getD ""
             name := formatContactName c, tags := contactTagNames tagsOracle c
             rawTags := getContactTagsWithDetails tagsOracle c.id }
    else none
  else none

/-- Specification-side description of the name-set accumulation. -/
def namesAccum (tagsOracle : Nat → Except String (List KeapContactTag))
    (names : List String) (l : List KeapContact) : List String :=
  l.foldl
    (fun ns c =>
      if truthy (extractPrimaryEmail c) then insertNames ns (contactTagNames tagsOracle c)
      else ns)
    names

theorem insertName_mem (names : List String) (n m : String) :
    m ∈ insertName names n ↔ m ∈ names ∨ m = n := by
  unfold insertName
  split
  · rename_i hmem
    constructor
    · exact Or.inl
    · rintro (h | rfl)
      · exact h
      · exact hmem
  · simp [List.mem_append]

theorem insertName_nodup (names : List String) (n : String) (h : names.Nodup) :
    (insertName names n).Nodup := by
  unfold insertName
  split
  · exact h
  · rename_i hmem
    simp [List.nodup_append, h, hmem]

theorem insertNames_mem (tags : List String) :
    ∀ (names : List String) (m : String),
    m ∈ insertNames names tags ↔ m ∈ names ∨ m ∈ tags := by
  induction tags with
  | nil => intro names m; simp [insertNames]
  | cons t rest ih =>
    intro names m
    show m ∈ insertNames (insertName names t) rest ↔ _
    rw [ih, insertName_mem]
    simp [or_assoc]

theorem insertNames_nodup (tags : List String) :
    ∀ (names : List String), names.Nodup → (insertNames names tags).Nodup := by
  induction tags with
  | nil => intro names h; exact h
  | cons t rest ih =>
    intro names h
    exact ih (insertName names t) (insertName_nodup names t h)

theorem namesAccum_mem (tagsOracle : Nat → Except String (List KeapContactTag))
    (l : List KeapContact) :
    ∀ (names : List String) (m : String),
    m ∈ namesAccum tagsOracle names l ↔
      m ∈ names ∨ ∃ c ∈ l, truthy (extractPrimaryEmail c) = true ∧
        m ∈ contactTagNames tagsOracle c := by
  induction l with
  | nil => intro names m; simp [namesAccum]
  | cons c rest ih =>
    intro names m
    show m ∈ namesAccum tagsOracle
      (if truthy (extractPrimaryEmail c) then insertNames names (contactTagNames tagsOracle c)
       else names) rest ↔ _
    by_cases he : truthy (extractPrimaryEmail c) = true
    · rw [if_pos he, ih, insertNames_mem]
      constructor
      · rintro ((h | h) | ⟨d, hd, hdt, hdm⟩)
        · exact Or.inl h
        · exact Or.inr ⟨c, List.mem_cons_self c rest, he, h⟩
        · exact Or.inr ⟨d, List.mem_cons_of_mem c hd, hdt, hdm⟩
      · rintro (h | ⟨d, hd, hdt, hdm⟩)
        · exact Or.inl (Or.inl h)
        · rcases List.mem_cons.1 hd with rfl | hd'
          · exact Or.inl (Or.inr hdm)
          · exact Or.inr ⟨d, hd', hdt, hdm⟩
    · rw [if_neg he, ih]
      constructor
      · rintro (h | ⟨d, hd, hdt, hdm⟩)
        · exact Or.inl h
        · exact Or.inr ⟨d, List.mem_cons_of_mem c hd, hdt, hdm⟩
      · rintro (h | ⟨d, hd, hdt, hdm⟩)
        · exact Or.inl h
        · rcases List.mem_cons.1 hd with rfl | hd'
          · exact absurd hdt he
          · exact Or.inr ⟨d, hd', hdt, hdm⟩

theorem namesAccum_nodup (tagsOracle : Nat → Except String (List KeapContactTag))
    (l : List KeapContact) :
    ∀ (names : List String), names.Nodup → (namesAccum tagsOracle names l).Nodup := by
  induction l with
  | nil => intro names h; exact h
  | cons c rest ih =>
    intro names h
    show (namesAccum tagsOracle
      (if truthy (extractPrimaryEmail c) then insertNames names (contactTagNames tagsOracle c)
       else names) rest).Nodup
    split
    · exact ih _ (insertNames_nodup _ names h)
    · exact ih _ h

theorem insertSorted_perm (s : String) (l : List String) :
    (insertSorted s l).Perm (s :: l) := by
  induction l with
  | nil => exact List.Perm.refl _
  | cons t rest ih =>
    unfold insertSorted
    split
    · exact List.Perm.refl _
    · exact (ih.cons t).trans (List.Perm.swap s t rest)

theorem sortStrings_perm (l : List String) : (sortStrings l).Perm l := by
  induction l with
  | nil => exact List.Perm.refl _
  | cons s rest ih =>
    show (insertSorted s (sortStrings rest)).Perm (s :: rest)
    exact (insertSorted_perm s (sortStrings rest)).trans (ih.cons s)

theorem allEntLoop_spec (tagsOracle : Nat → Except String (List KeapContactTag))
    (inc : Bool) :
    ∀ (l : List KeapContact) (names : List String),
    allEntLoop tagsOracle inc l names =
      (l.filterMap (entitlementOf tagsOracle inc),
       namesAccum tagsOracle names l,
       (l.filter (fun c => truthy (extractPrimaryEmail c) &&
         decide (0 < (contactTagNames tagsOracle c).length))).length) := by
  intro l
  induction l with
  | nil => intro names; rfl
  | cons contact rest ih =>
    intro names
    by_cases he : truthy (extractPrimaryEmail contact) = true
    · simp only [allEntLoop, contactTagNames, he, if_true, ih, List.filterMap_cons,
        List.filter_cons, entitlementOf, namesAccum, List.foldl_cons, Bool.true_and]
      by_cases hc : (decide (0 <
          ((getContactTagsWithDetails tagsOracle contact.id).map
            (fun tagData => tagData.tag.name)).length) || inc) = true
      · simp only [hc, if_true]
        by_cases hd : 0 < ((getContactTagsWithDetails tagsOracle contact.id).map
            (fun tagData => tagData.tag.name)).length
        · have hd' : 0 < (getContactTagsWithDetails tagsOracle contact.id).length := by
            simpa using hd
          simp [hd, hd', namesAccum] <;> omega
        · have hd' : ¬ 0 < (getContactTagsWithDetails tagsOracle contact.id).length := by
            simpa using hd
          simp [hd, hd', namesAccum] <;> omega
      · simp only [Bool.or_eq_true, decide_eq_true_eq, not_or, Bool.not_eq_true] at hc
        obtain ⟨hd0, hinc⟩ := hc
        have hd' : ¬ 0 < (getContactTagsWithDetails tagsOracle contact.id).length := by
          simpa using hd0
        simp [hd0, hd', hinc, namesAccum]
    · simp only [allEntLoop, he, if_false, ih, List.filterMap_cons, List.filter_cons,
        entitlementOf, namesAccum, List.foldl_cons, Bool.false_and, Bool.false_eq_true]

theorem allEntLoop_congr (o1 o2 : Nat → Except String (List KeapContactTag)) (inc : Bool)
    (h : ∀ i, getContactTagsWithDetails o1 i = getContactTagsWithDetails o2 i) :
    ∀ (l : List KeapContact) (names : List String),
    allEntLoop o1 inc l names = allEntLoop o2 inc l names := by
  intro l
  induction l with
  | nil => intro names; rfl
  | cons contact rest ih =>
    intro names
    simp only [allEntLoop, h contact.id, ih]

/-- C7: `getAllEntitlements` processes the remote contact collection up to
the caller-supplied overall limit (`summary.totalContacts` is the number of
contacts retrieved); each processed contact contributes exactly the
entitlement `entitlementOf` describes, so contacts with no usable email are
skipped and emailed contacts are listed iff they have tags or the
include-contacts-without-tags option is set; `contactsWithTags` counts the
emailed contacts with a non-empty tag list; `availableEntitlements` is a
duplicate-free list holding exactly the tag names observed across the
processed emailed contacts, and `totalUniqueEntitlements` is its size; and
a contact whose tag fetch fails behaves exactly as one whose fetch returns
no tags — the run is unchanged if every failure is replaced by an empty
tag list, so per-contact failures never abort the operation. -/
theorem claim_c7_all_entitlements
    (tagsOracle : Nat → Except String (List KeapContactTag))
    (remote : List KeapContact) (limit : Nat) (inc : Bool) :
    (getAllEntitlements tagsOracle remote limit inc).entitlements =
      (remote.take limit).filterMap (entitlementOf tagsOracle inc) ∧
    (getAllEntitlements tagsOracle remote limit inc).summary.totalContacts =
      (remote.take limit).length ∧
    (getAllEntitlements tagsOracle remote limit inc).summary.contactsWithTags =
      ((remote.take limit).filter (fun c => truthy (extractPrimaryEmail c) &&
        decide (0 < (contactTagNames tagsOracle c).length))).length ∧
    (getAllEntitlements tagsOracle remote limit inc).summary.totalUniqueEntitlements =
      (getAllEntitlements tagsOracle remote limit inc).availableEntitlements.length ∧
    (getAllEntitlements tagsOracle remote limit inc).availableEntitlements.Nodup ∧
    (∀ n, n ∈ (getAllEntitlements tagsOracle remote limit inc).availableEntitlements ↔
      ∃ c ∈ remote.take limit, truthy (extractPrimaryEmail c) = true ∧
        n ∈ contactTagNames tagsOracle c) ∧
    getAllEntitlements tagsOracle remote limit inc =
      getAllEntitlements (fun i => .ok (getContactTagsWithDetails tagsOracle i))
        remote limit inc := by
  have hge : getAllEntitlements tagsOracle remote limit inc =
      { entitlements := (remote.take limit).filterMap (entitlementOf tagsOracle inc)
        summary := { totalContacts := (remote.take limit).length
                     contactsWithTags := ((remote.take limit).filter
                       (fun c => truthy (extractPrimaryEmail c) &&
                         decide (0 < (contactTagNames tagsOracle c).length))).length
                     totalUniqueEntitlements :=
                       (namesAccum tagsOracle [] (remote.take limit)).length }
        availableEntitlements :=
          sortStrings (namesAccum tagsOracle [] (remote.take limit)) } := by
    unfold getAllEntitlements
    simp only [allEntLoop_spec tagsOracle inc]
  refine ⟨?_, ?_, ?_, ?_, ?_, ?_, ?_⟩
  · rw [hge]
  · rw [hge]
  · rw [hge]
  · rw [hge]
    exact ((sortStrings_perm _).length_eq).symm
  · rw [hge]
    exact ((sortStrings_perm _).nodup_iff).2
      (namesAccum_nodup tagsOracle (remote.take limit) [] List.nodup_nil)
  · intro n
    rw [hge]
    show n ∈ sortStrings (namesAccum tagsOracle [] (remote.take limit)) ↔ _
    rw [(sortStrings_perm _).mem_iff, namesAccum_mem]
    simp
  · unfold getAllEntitlements
    simp only [allEntLoop_congr tagsOracle
      (fun i => .ok (getContactTagsWithDetails tagsOracle i)) inc (fun i => rfl)]

end KeapClient
